import Mathlib

/-!
Verification of the OpenObservation C++ core (OpenObservationCxx).

The repository has two source files:

* `Sources/OpenObservationCxx/ThreadLocal.cpp`: a per-thread slot holding one
  pointer-sized value, backed by
  `static SWIFT_THREAD_LOCAL_TYPE(void *, swift::tls_key::observation_transaction) Value`,
  with entry points `_swift_openobservation_tls_get` (returns `Value.get()`) and
  `_swift_openobservation_tls_set` (calls `Value.set(value)`).
* `Sources/OpenObservationCxx/Locking.cpp`: a wrapper over the platform
  `swift::Mutex`, with entry points `_swift_openobservation_lock_size`,
  `_swift_openobservation_lock_init`, `_swift_openobservation_lock_lock`,
  `_swift_openobservation_lock_unlock`.

The shallow embedding below models the thread-local slot as a total map from
OS-thread identifiers to pointer-sized values (a C++ `thread_local` pointer
with static storage duration is zero-initialized, so the per-thread default is
the null value, modelled as `0`), and models `sizeof(Mutex)` as an explicit
platform parameter.
-/

namespace OpenObservation

/-- Pointer-sized values (`void *`). `0` models the null/empty pointer. -/
abbrev Ptr := Nat

/-- OS thread identifiers. -/
abbrev ThreadId := Nat

/-- The state of the thread-local slot `Value`: one pointer-sized cell per OS
thread.  This is the semantics of
`static SWIFT_THREAD_LOCAL_TYPE(void *, ...) Value` in `ThreadLocal.cpp`. -/
def TLSState := ThreadId → Ptr

/-- The initial state of the slot: every thread's cell holds the null value
(the `thread_local void *` has static storage duration, hence is
zero-initialized on every thread's first access). -/
def tlsInit : TLSState := fun _ => 0

/-- `_swift_openobservation_tls_get` from `ThreadLocal.cpp`: `return Value.get();`,
reading the calling thread `t`'s cell. -/
def _swift_openobservation_tls_get (s : TLSState) (t : ThreadId) : Ptr := s t

/-- `_swift_openobservation_tls_set` from `ThreadLocal.cpp`: `Value.set(value);`,
writing the calling thread `t`'s cell. -/
def _swift_openobservation_tls_set (s : TLSState) (t : ThreadId) (v : Ptr) : TLSState :=
  fun u => if u = t then v else s u

/-- `_swift_openobservation_tls_get` with the state it leaves behind made
explicit: the C function only reads `Value` and returns it, so the resulting
state is the input state. -/
def tls_get_full (s : TLSState) (t : ThreadId) : Ptr × TLSState :=
  (_swift_openobservation_tls_get s t, s)

/-- A call made against the thread-local slot: a `set` performed by thread `t`
with value `v`, or a `get` performed by thread `t`. -/
inductive TLSOp where
  | set (t : ThreadId) (v : Ptr)
  | get (t : ThreadId)
  deriving DecidableEq

/-- Effect of one slot call on the slot state (`get` reads only). -/
def tlsApply (s : TLSState) : TLSOp → TLSState
  | .set t v => _swift_openobservation_tls_set s t v
  | .get _ => s

/-- Slot state after a history of calls, starting from the zero-initialized
state. -/
def tlsRun (tr : List TLSOp) : TLSState :=
  List.foldl tlsApply tlsInit tr

/-- `_swift_openobservation_lock_size` from `Locking.cpp`, with the
platform-determined constant `sizeof(Mutex)` as an explicit parameter:
`size_t bytes = sizeof(Mutex); if (bytes < 1) { return 1; } return bytes;`. -/
def _swift_openobservation_lock_size (sizeofMutex : Nat) : Nat :=
  let bytes := sizeofMutex
  if bytes < 1 then 1 else bytes

/-- The condition of the defensive branch `if (bytes < 1)` in
`_swift_openobservation_lock_size`. -/
def lock_size_branch_taken (sizeofMutex : Nat) : Bool :=
  decide (sizeofMutex < 1)

/-- The caller-allocated lock buffer, abstractly: whether
`_swift_openobservation_lock_init` has constructed a `Mutex` in it, and whether
that mutex is currently held. -/
structure LockCell where
  initialized : Bool
  held : Bool
  deriving DecidableEq

/-- Process-level state the six entry points of the core act on: the
platform-determined `sizeof(Mutex)`, one lock buffer, and the thread-local
slot. -/
structure CoreState where
  sizeofMutex : Nat
  lock : LockCell
  tls : TLSState

/-- One call into the core's C surface, with the calling thread explicit for
the thread-local operations. -/
inductive CoreOp where
  | lockSize
  | lockInit
  | lockLock
  | lockUnlock
  | tlsGet (t : ThreadId)
  | tlsSet (t : ThreadId) (v : Ptr)

/-- Result of a call into the core: a byte count (`size_t`), a pointer
(`void *`), or nothing (`void`).  These are the three return types that appear
in `Locking.cpp` and `ThreadLocal.cpp`; none of them carries an error
alternative. -/
inductive CoreRet where
  | bytes (n : Nat)
  | ptr (p : Ptr)
  | unit

/-- One call into the core, as a state transformer.  `none` marks the
contract violations that are undefined behavior at this layer (double `init`,
`lock`/`unlock` on an unconstructed buffer, reentrant `lock`, `unlock` without
a matching `lock`); every defined case is a straight-line return of a plain
result, exactly as in the C sources. -/
def coreRun : CoreOp → CoreState → Option (CoreRet × CoreState)
  | .lockSize, s =>
      some (.bytes (_swift_openobservation_lock_size s.sizeofMutex), s)
  | .lockInit, s =>
      if s.lock.initialized then none
      else some (.unit, { s with lock := ⟨true, false⟩ })
  | .lockLock, s =>
      if s.lock.initialized && !s.lock.held then
        some (.unit, { s with lock := ⟨true, true⟩ })
      else none
  | .lockUnlock, s =>
      if s.lock.initialized && s.lock.held then
        some (.unit, { s with lock := ⟨true, false⟩ })
      else none
  | .tlsGet t, s =>
      some (.ptr (_swift_openobservation_tls_get s.tls t), s)
  | .tlsSet t v, s =>
      some (.unit, { s with tls := _swift_openobservation_tls_set s.tls t v })

/-- The preconditions stated by the spec for each entry point: `init` exactly
once per buffer before any `lock`/`unlock`; `lock` only on an initialized,
not-currently-held lock (non-reentrant, and in this sequential model a held
lock would block); `unlock` only on an initialized, held lock.  `size`, `get`
and `set` have no precondition. -/
def corePre : CoreOp → CoreState → Prop
  | .lockInit, s => s.lock.initialized = false
  | .lockLock, s => s.lock.initialized = true ∧ s.lock.held = false
  | .lockUnlock, s => s.lock.initialized = true ∧ s.lock.held = true
  | _, _ => True

/-- A concrete process state used to instantiate theorems: a 64-byte platform
mutex, an untouched lock buffer, and the zero-initialized slot. -/
def sampleState : CoreState :=
  { sizeofMutex := 64, lock := ⟨false, false⟩, tls := tlsInit }

/-!
Interleaving model for the mutual-exclusion test (spec §8.2): `n` threads each
perform `M` cycles of `_swift_openobservation_lock_lock`, a (non-atomic)
read-then-write increment of a shared counter, and
`_swift_openobservation_lock_unlock`, all against one initialized lock.  The
repository's `lock`/`unlock` forward one-to-one to the platform
`swift::Mutex::lock`/`unlock` (external to this repository), which is modelled
by its contract: an acquire succeeds only while no thread holds the mutex, and
a blocked acquirer simply does not step.  The increment is deliberately split
into a read step and a write step, so that lost updates would be expressible
if acquisition did not exclude other holders.
-/

/-- Position of one thread inside its current cycle: outside the critical
section, just acquired, holding a read value of the counter, or having written
the incremented value back. -/
inductive Phase where
  | idle
  | locked
  | readv (v : Nat)
  | written
  deriving DecidableEq

/-- One thread's private state: its number of completed cycles and its phase
within the current cycle. -/
structure TSt where
  cycles : Nat
  phase : Phase
  deriving DecidableEq

/-- Global state of the mutual-exclusion experiment: the mutex holder (the
`swift::Mutex` behind `_swift_openobservation_lock_lock`), the shared counter,
and each thread's private state. -/
structure Sys (n : Nat) where
  holder : Option (Fin n)
  counter : Nat
  threads : Fin n → TSt

/-- Start of the experiment: the lock is initialized and free, the counter is
zero, every thread is outside its critical section with zero completed
cycles. -/
def initSys (n : Nat) : Sys n :=
  { holder := none, counter := 0, threads := fun _ => ⟨0, .idle⟩ }

/-- Interleaved small-step semantics of `n` threads each running up to `M`
cycles of `lock(); read counter; write counter+1; unlock()`.  An `acquire`
step is enabled only while the mutex is free: this is the contract of the
platform mutex that `_swift_openobservation_lock_lock` forwards to (a
contended caller blocks, i.e. takes no step). -/
inductive Step (n M : Nat) : Sys n → Sys n → Prop where
  | acquire (s : Sys n) (t : Fin n)
      (hfree : s.holder = none)
      (hph : (s.threads t).phase = .idle)
      (hc : (s.threads t).cycles < M) :
      Step n M s
        { holder := some t, counter := s.counter,
          threads := Function.update s.threads t ⟨(s.threads t).cycles, .locked⟩ }
  | readCounter (s : Sys n) (t : Fin n)
      (hph : (s.threads t).phase = .locked) :
      Step n M s
        { holder := s.holder, counter := s.counter,
          threads := Function.update s.threads t ⟨(s.threads t).cycles, .readv s.counter⟩ }
  | writeCounter (s : Sys n) (t : Fin n) (v : Nat)
      (hph : (s.threads t).phase = .readv v) :
      Step n M s
        { holder := s.holder, counter := v + 1,
          threads := Function.update s.threads t ⟨(s.threads t).cycles, .written⟩ }
  | release (s : Sys n) (t : Fin n)
      (hph : (s.threads t).phase = .written) :
      Step n M s
        { holder := none, counter := s.counter,
          threads := Function.update s.threads t ⟨(s.threads t).cycles + 1, .idle⟩ }

/-- States reachable from the start of the experiment by any interleaving. -/
def Reaches (n M : Nat) (s : Sys n) : Prop :=
  Relation.ReflTransGen (Step n M) (initSys n) s

/-- Increments a thread has already contributed to the shared counter: one per
completed cycle, plus one if its write-back in the current cycle has
happened. -/
def contrib (ts : TSt) : Nat :=
  ts.cycles + (match ts.phase with | .written => 1 | _ => 0)

/-- Inductive invariant of the experiment: (1) any thread inside its critical
section is the mutex holder; (2) a thread that has read the counter read its
current value — no other thread has changed it since; (3) the counter equals
the total number of increments performed so far. -/
def Inv (n : Nat) (s : Sys n) : Prop :=
  (∀ t : Fin n, (s.threads t).phase ≠ .idle → s.holder = some t) ∧
  (∀ (t : Fin n) (v : Nat), (s.threads t).phase = .readv v → s.counter = v) ∧
  s.counter = ∑ t : Fin n, contrib (s.threads t)

/-- The state in which the `n = 1`, `M = 1` run of the experiment finishes. -/
def c7FinalState : Sys 1 :=
  { holder := none, counter := 1, threads := fun _ => ⟨1, .idle⟩ }

/-- Intermediate state of the `n = 1`, `M = 1` run: thread 0 has acquired. -/
def c7s1 : Sys 1 :=
  { holder := some 0, counter := 0, threads := fun _ => ⟨0, .locked⟩ }

/-- Intermediate state of the `n = 1`, `M = 1` run: thread 0 has read `0`. -/
def c7s2 : Sys 1 :=
  { holder := some 0, counter := 0, threads := fun _ => ⟨0, .readv 0⟩ }

/-- Intermediate state of the `n = 1`, `M = 1` run: thread 0 has written `1`. -/
def c7s3 : Sys 1 :=
  { holder := some 0, counter := 1, threads := fun _ => ⟨0, .written⟩ }

/-!  Helper lemmas. -/

lemma sum_contrib_update (n : ℕ) (f : Fin n → TSt) (t : Fin n) (a : TSt) :
    (∑ u, contrib (Function.update f t a u)) + contrib (f t)
      = (∑ u, contrib (f u)) + contrib a := by
  have hmem : t ∈ (Finset.univ : Finset (Fin n)) := Finset.mem_univ t
  have h1 : (fun u => contrib (Function.update f t a u))
      = Function.update (fun u => contrib (f u)) t (contrib a) := by
    funext u
    by_cases hu : u = t
    · subst hu; simp [Function.update_same]
    · simp [Function.update_noteq hu]
  calc (∑ u, contrib (Function.update f t a u)) + contrib (f t)
      = (∑ u, Function.update (fun u => contrib (f u)) t (contrib a) u) + contrib (f t) := by
        rw [h1]
    _ = (contrib a + ∑ u in Finset.univ \ {t}, contrib (f u)) + contrib (f t) := by
        rw [Finset.sum_update_of_mem hmem]
    _ = (∑ u, contrib (f u)) + contrib a := by
        rw [Finset.sum_eq_sum_diff_singleton_add hmem (fun u => contrib (f u))]
        omega

lemma inv_init (n : ℕ) : Inv n (initSys n) := by
  unfold Inv
  refine ⟨fun t h => absurd rfl h, fun t v h => ?_, ?_⟩
  · simp [initSys] at h
  · simp [initSys, contrib]

lemma inv_step (n M : ℕ) (s s2 : Sys n) (hst : Step n M s s2) (hinv : Inv n s) :
    Inv n s2 := by
  obtain ⟨h1, h2, h3⟩ := hinv
  cases hst with
  | acquire t hfree hph hc =>
    unfold Inv
    refine ⟨?_, ?_, ?_⟩
    · intro u hu
      dsimp only at hu ⊢
      by_cases hut : u = t
      · subst hut; rfl
      · rw [Function.update_noteq hut] at hu
        have := h1 u hu
        rw [hfree] at this
        cases this
    · intro u v hu
      dsimp only at hu ⊢
      by_cases hut : u = t
      · subst hut
        rw [Function.update_same] at hu
        cases hu
      · rw [Function.update_noteq hut] at hu
        have hnotidle : (s.threads u).phase ≠ Phase.idle := by
          rw [hu]; intro hcontra; cases hcontra
        have := h1 u hnotidle
        rw [hfree] at this
        cases this
    · dsimp only
      have hsum := sum_contrib_update n s.threads t ⟨(s.threads t).cycles, Phase.locked⟩
      have hold : contrib (s.threads t) = (s.threads t).cycles := by
        simp [contrib, hph]
      have hnew : contrib (⟨(s.threads t).cycles, Phase.locked⟩ : TSt)
          = (s.threads t).cycles := by simp [contrib]
      omega
  | readCounter t hph =>
    have htholder : s.holder = some t := by
      refine h1 t ?_
      rw [hph]; intro hcontra; cases hcontra
    unfold Inv
    refine ⟨?_, ?_, ?_⟩
    · intro u hu
      dsimp only at hu ⊢
      by_cases hut : u = t
      · subst hut; exact htholder
      · rw [Function.update_noteq hut] at hu
        exact h1 u hu
    · intro u v hu
      dsimp only at hu ⊢
      by_cases hut : u = t
      · subst hut
        rw [Function.update_same] at hu
        dsimp only at hu
        injection hu with hv
      · rw [Function.update_noteq hut] at hu
        exact h2 u v hu
    · dsimp only
      have hsum := sum_contrib_update n s.threads t ⟨(s.threads t).cycles, Phase.readv s.counter⟩
      have hold : contrib (s.threads t) = (s.threads t).cycles := by
        simp [contrib, hph]
      have hnew : contrib (⟨(s.threads t).cycles, Phase.readv s.counter⟩ : TSt)
          = (s.threads t).cycles := by simp [contrib]
      omega
  | writeCounter t v hph =>
    have htholder : s.holder = some t := by
      refine h1 t ?_
      rw [hph]; intro hcontra; cases hcontra
    have hcv : s.counter = v := h2 t v hph
    unfold Inv
    refine ⟨?_, ?_, ?_⟩
    · intro u hu
      dsimp only at hu ⊢
      by_cases hut : u = t
      · subst hut; exact htholder
      · rw [Function.update_noteq hut] at hu
        exact h1 u hu
    · intro u w hu
      dsimp only at hu ⊢
      by_cases hut : u = t
      · subst hut
        rw [Function.update_same] at hu
        cases hu
      · rw [Function.update_noteq hut] at hu
        have huholder : s.holder = some u := by
          refine h1 u ?_
          rw [hu]; intro hcontra; cases hcontra
        rw [htholder] at huholder
        injection huholder with huholder
        exact absurd huholder.symm hut
    · dsimp only
      have hsum := sum_contrib_update n s.threads t ⟨(s.threads t).cycles, Phase.written⟩
      have hold : contrib (s.threads t) = (s.threads t).cycles := by
        simp [contrib, hph]
      have hnew : contrib (⟨(s.threads t).cycles, Phase.written⟩ : TSt)
          = (s.threads t).cycles + 1 := by simp [contrib]
      omega
  | release t hph =>
    have htholder : s.holder = some t := by
      refine h1 t ?_
      rw [hph]; intro hcontra; cases hcontra
    unfold Inv
    refine ⟨?_, ?_, ?_⟩
    · intro u hu
      dsimp only at hu ⊢
      by_cases hut : u = t
      · subst hut
        rw [Function.update_same] at hu
        exact absurd rfl hu
      · rw [Function.update_noteq hut] at hu
        have huholder : s.holder = some u := h1 u hu
        rw [htholder] at huholder
        injection huholder with huholder
        exact absurd huholder.symm hut
    · intro u w hu
      dsimp only at hu ⊢
      by_cases hut : u = t
      · subst hut
        rw [Function.update_same] at hu
        cases hu
      · rw [Function.update_noteq hut] at hu
        exact h2 u w hu
    · dsimp only
      have hsum := sum_contrib_update n s.threads t ⟨(s.threads t).cycles + 1, Phase.idle⟩
      have hold : contrib (s.threads t) = (s.threads t).cycles + 1 := by
        simp [contrib, hph]
      have hnew : contrib (⟨(s.threads t).cycles + 1, Phase.idle⟩ : TSt)
          = (s.threads t).cycles + 1 := by simp [contrib]
      omega

lemma inv_reaches (n M : ℕ) (s : Sys n) (h : Reaches n M s) : Inv n s := by
  induction h with
  | refl => exact inv_init n
  | tail hsteps hstep ih => exact inv_step n M _ _ hstep ih

lemma update_const_fin_one (f : Fin 1 → TSt) (t : Fin 1) (a : TSt) :
    Function.update f t a = fun _ => a :=
  funext fun u => by rw [Subsingleton.elim u t]; exact Function.update_same t a f

lemma c7_step1 : Step 1 1 (initSys 1) c7s1 := by
  have e : c7s1 =
      { holder := some 0,
        counter := (initSys 1).counter,
        threads := Function.update (initSys 1).threads 0
          ⟨((initSys 1).threads 0).cycles, Phase.locked⟩ } := by
    simp [c7s1, initSys, update_const_fin_one]
  rw [e]
  exact Step.acquire (initSys 1) 0 rfl rfl (by decide)

lemma c7_step2 : Step 1 1 c7s1 c7s2 := by
  have e : c7s2 =
      { holder := c7s1.holder,
        counter := c7s1.counter,
        threads := Function.update c7s1.threads 0
          ⟨(c7s1.threads 0).cycles, Phase.readv c7s1.counter⟩ } := by
    simp [c7s1, c7s2, update_const_fin_one]
  rw [e]
  exact Step.readCounter c7s1 0 rfl

lemma c7_step3 : Step 1 1 c7s2 c7s3 := by
  have e : c7s3 =
      { holder := c7s2.holder,
        counter := 0 + 1,
        threads := Function.update c7s2.threads 0
          ⟨(c7s2.threads 0).cycles, Phase.written⟩ } := by
    simp [c7s2, c7s3, update_const_fin_one]
  rw [e]
  exact Step.writeCounter c7s2 0 0 rfl

lemma c7_step4 : Step 1 1 c7s3 c7FinalState := by
  have e : c7FinalState =
      { holder := none,
        counter := c7s3.counter,
        threads := Function.update c7s3.threads 0
          ⟨(c7s3.threads 0).cycles + 1, Phase.idle⟩ } := by
    simp [c7s3, c7FinalState, update_const_fin_one]
  rw [e]
  exact Step.release c7s3 0 rfl

lemma c7_reaches : Reaches 1 1 c7FinalState :=
  Relation.ReflTransGen.tail
    (Relation.ReflTransGen.tail
      (Relation.ReflTransGen.tail
        (Relation.ReflTransGen.tail Relation.ReflTransGen.refl c7_step1)
        c7_step2)
      c7_step3)
    c7_step4

lemma coreRun_preserves_sizeofMutex (op : CoreOp) (s : CoreState) (r : CoreRet)
    (s2 : CoreState) (h : coreRun op s = some (r, s2)) :
    s2.sizeofMutex = s.sizeofMutex := by
  cases op <;> simp only [coreRun] at h <;> (try split at h) <;>
    simp only [Option.some.injEq, Prod.mk.injEq, reduceCtorEq] at h <;>
    obtain ⟨h1, h2⟩ := h <;> rw [← h2]

/-!  The claims. -/

/-- C1: within a single thread `t`, calling the slot set operation with any
pointer-sized value `P` (including the null value `0`) and then immediately
calling the slot get operation on the same thread returns exactly `P`, from
any prior slot state. -/
theorem C1_tls_set_then_get (s : TLSState) (t : ThreadId) (v : Ptr) :
    _swift_openobservation_tls_get (_swift_openobservation_tls_set s t v) t = v := by
  simp [_swift_openobservation_tls_get, _swift_openobservation_tls_set]

/-- C2: a value stored by the slot set operation on thread `t1` is never
returned by the slot get operation on a distinct thread `t2`; the set changes
only the calling thread's cell and leaves every other thread's cell
unchanged. -/
theorem C2_tls_isolation (s : TLSState) (t1 t2 : ThreadId) (v : Ptr) (h : t1 ≠ t2) :
    _swift_openobservation_tls_get (_swift_openobservation_tls_set s t1 v) t2
      = _swift_openobservation_tls_get s t2 := by
  simp [_swift_openobservation_tls_get, _swift_openobservation_tls_set, Ne.symm h]

theorem C2_tls_isolation_witness :
    (0 : ThreadId) ≠ 1 ∧
      _swift_openobservation_tls_get (_swift_openobservation_tls_set tlsInit 0 5) 1
        = _swift_openobservation_tls_get tlsInit 1 :=
  ⟨by decide, C2_tls_isolation tlsInit 0 1 5 (by decide)⟩

lemma tls_foldl_no_set (t : ThreadId) (tr : List TLSOp) (s : TLSState)
    (h : ∀ v : Ptr, TLSOp.set t v ∉ tr) :
    List.foldl tlsApply s tr t = s t := by
  induction tr generalizing s with
  | nil => rfl
  | cons op tl ih =>
    have hop : ∀ v : Ptr, op ≠ TLSOp.set t v := by
      intro v hv
      exact h v (by rw [← hv]; exact List.mem_cons_self op tl)
    have htl : ∀ v : Ptr, TLSOp.set t v ∉ tl := by
      intro v hv
      exact h v (List.mem_cons_of_mem op hv)
    rw [List.foldl_cons, ih (tlsApply s op) htl]
    cases op with
    | get u => rfl
    | set u v =>
      have hut : t ≠ u := by
        intro hcontra
        exact hop v (by rw [hcontra])
      simp [tlsApply, _swift_openobservation_tls_set, hut]

/-- C3: on a thread `t` on which the slot set operation has never been called,
the slot get operation returns the default null value `0`, after any history
of slot calls by other threads (including the empty history of a freshly
started thread). -/
theorem C3_tls_default (tr : List TLSOp) (t : ThreadId)
    (h : ∀ v : Ptr, TLSOp.set t v ∉ tr) :
    _swift_openobservation_tls_get (tlsRun tr) t = 0 := by
  unfold tlsRun _swift_openobservation_tls_get
  rw [tls_foldl_no_set t tr tlsInit h]
  rfl

theorem C3_tls_default_witness :
    (∀ v : Ptr, TLSOp.set 0 v ∉ [TLSOp.set 1 5, TLSOp.get 1]) ∧
      _swift_openobservation_tls_get (tlsRun [TLSOp.set 1 5, TLSOp.get 1]) 0 = 0 := by
  have h : ∀ v : Ptr, TLSOp.set 0 v ∉ [TLSOp.set 1 5, TLSOp.get 1] := by
    intro v
    simp
  exact ⟨h, C3_tls_default [TLSOp.set 1 5, TLSOp.get 1] 0 h⟩

/-- C4: on any thread `t`, calling the slot set operation with `P1` and then
with `P2` makes a subsequent get on that thread return `P2`: the second set
overwrites the first, from any prior slot state. -/
theorem C4_tls_set_overwrites (s : TLSState) (t : ThreadId) (v1 v2 : Ptr) :
    _swift_openobservation_tls_get
        (_swift_openobservation_tls_set (_swift_openobservation_tls_set s t v1) t v2) t
      = v2 := by
  simp [_swift_openobservation_tls_get, _swift_openobservation_tls_set]

/-- C5: the lock size query returns a value greater than or equal to 1 for
every possible platform value of `sizeof(Mutex)`, including a zero-sized
one. -/
theorem C5_lock_size_ge_one (sizeofMutex : Nat) :
    1 ≤ _swift_openobservation_lock_size sizeofMutex := by
  simp only [_swift_openobservation_lock_size]
  split <;> omega

/-- C6: the lock size query is a pure function of the platform: it reads and
writes no mutable process state, so it returns the same byte count before and
after any successful core operation within the same process. -/
theorem C6_lock_size_stable (op : CoreOp) (s : CoreState) (r : CoreRet)
    (s2 : CoreState) (h : coreRun op s = some (r, s2)) :
    coreRun CoreOp.lockSize s
        = some (CoreRet.bytes (_swift_openobservation_lock_size s.sizeofMutex), s) ∧
      coreRun CoreOp.lockSize s2
        = some (CoreRet.bytes (_swift_openobservation_lock_size s.sizeofMutex), s2) := by
  refine ⟨rfl, ?_⟩
  have hsz := coreRun_preserves_sizeofMutex op s r s2 h
  simp [coreRun, hsz]

theorem C6_lock_size_stable_witness :
    coreRun CoreOp.lockSize sampleState
        = some (CoreRet.bytes (_swift_openobservation_lock_size sampleState.sizeofMutex),
            sampleState) ∧
      coreRun CoreOp.lockSize sampleState
        = some (CoreRet.bytes (_swift_openobservation_lock_size sampleState.sizeofMutex),
            sampleState) :=
  C6_lock_size_stable CoreOp.lockSize sampleState
    (CoreRet.bytes (_swift_openobservation_lock_size sampleState.sizeofMutex)) sampleState rfl

/-- C7: the lock acquire and release operations provide mutual exclusion: if
`n` threads each perform `M` acquire, read-increment-write, release cycles on
a shared counter guarded by one initialized lock, then in every reachable
state in which all threads have finished their `M` cycles the counter equals
`n * M` exactly. -/
theorem C7_mutual_exclusion_counter (n M : ℕ) (s : Sys n)
    (hreach : Reaches n M s)
    (hfin : ∀ t : Fin n, s.threads t = ⟨M, Phase.idle⟩) :
    s.counter = n * M := by
  obtain ⟨-, -, h3⟩ := inv_reaches n M s hreach
  have hc : ∀ t : Fin n, contrib (s.threads t) = M := by
    intro t
    rw [hfin t]
    simp [contrib]
  rw [h3, Finset.sum_congr rfl fun t _ => hc t]
  simp [Finset.sum_const, Finset.card_univ, Nat.mul_comm]

theorem C7_mutual_exclusion_counter_witness : c7FinalState.counter = 1 * 1 :=
  C7_mutual_exclusion_counter 1 1 c7FinalState c7_reaches fun _ => rfl

/-- C8: no core operation produces a recoverable error value: for every
operation whose precondition holds, the dispatcher returns a plain result
(`some`), and the result type `CoreRet` carries only a byte count, a pointer,
or nothing. -/
theorem C8_no_error_values (op : CoreOp) (s : CoreState) (h : corePre op s) :
    ∃ r : CoreRet × CoreState, coreRun op s = some r := by
  cases op <;> simp_all [coreRun, corePre]

theorem C8_no_error_values_witness :
    corePre CoreOp.lockSize sampleState ∧
      ∃ r : CoreRet × CoreState, coreRun CoreOp.lockSize sampleState = some r :=
  ⟨trivial, C8_no_error_values CoreOp.lockSize sampleState trivial⟩

/-- C9: under the C++ guarantee that `sizeof` of a complete type is at least
1, the defensive branch `if (bytes < 1)` of the lock size query is never
taken, and the operation returns exactly `sizeof(Mutex)`. -/
theorem C9_branch_unreachable (sizeofMutex : Nat) (h : 1 ≤ sizeofMutex) :
    lock_size_branch_taken sizeofMutex = false ∧
      _swift_openobservation_lock_size sizeofMutex = sizeofMutex := by
  constructor
  · simp only [lock_size_branch_taken, decide_eq_false_iff_not]
    omega
  · simp only [_swift_openobservation_lock_size]
    split <;> omega

theorem C9_branch_unreachable_witness :
    1 ≤ 64 ∧
      (lock_size_branch_taken 64 = false ∧ _swift_openobservation_lock_size 64 = 64) :=
  ⟨by decide, C9_branch_unreachable 64 (by decide)⟩

/-- C10: the slot get operation is a pure read: it leaves the slot state
unchanged, and two consecutive gets on the same thread with no intervening
set return equal values. -/
theorem C10_tls_get_pure (s : TLSState) (t : ThreadId) :
    (tls_get_full s t).2 = s ∧
      (tls_get_full (tls_get_full s t).2 t).1 = (tls_get_full s t).1 :=
  ⟨rfl, rfl⟩

end OpenObservation
